import Mathlib

set_option autoImplicit false

namespace OE1

/-!
Verification of the rule-matching and broadcast-lifecycle pipeline of
src/oe1_ondemand.py, as a shallow embedding in Lean 4.

Conventions of the embedding:
- Python dicts with string keys and values are association lists (`Dict`);
  `dictSet` models assignment (replace in place, append if new), `dictUpdate`
  models `dict.update`.
- Machine-level collaborators (urllib, ffmpeg, BeautifulSoup, the filesystem)
  are modelled at their interface boundary: the filesystem is an explicit
  value (`FS`), network and process outcomes are oracle functions in `Env`,
  and every mutation of the outside world is recorded as an `FsEvent`.
- Python exceptions that the source does not catch are modelled with
  `Except String` (for pure call chains) or a `crashed` flag threaded through
  the pipeline state (so that the events emitted before a crash remain
  observable).
-/

/-- Association list standing for a Python dict with string keys/values. -/
abbrev Dict := List (String × String)

/-- First-match lookup, models `d[k]` / `k in d`. -/
def dictLookup (d : Dict) (k : String) : Option String :=
  match d with
  | [] => none
  | (k0, v) :: rest => if k0 = k then some v else dictLookup rest k

/-- Models `d[k] = v`: replaces the binding in place if the key exists
(Python dicts keep the original insertion position), appends otherwise. -/
def dictSet (d : Dict) (k v : String) : Dict :=
  if d.any (fun p => p.1 == k) then
    d.map (fun p => if p.1 = k then (k, v) else p)
  else d ++ [(k, v)]

/-- Models `d.update(upd)`. -/
def dictUpdate (d upd : Dict) : Dict :=
  upd.foldl (fun acc p => dictSet acc p.1 p.2) d

def exceptOfOption {α : Type} (msg : String) : Option α → Except String α
  | some a => .ok a
  | none => .error msg

deriving instance DecidableEq for Except

/-! ### String helpers shared by several source functions -/

/-- The character class of the second regex in `repl_unsave`
(the source function name spells unsafe as unsave). -/
def unsaveChars : List Char := ['\\', '/', ':', '"', '*', '?', '<', '>', '|']

def isUnsave (c : Char) : Bool := unsaveChars.contains c

/-- Python whitespace as matched by the regex class `[\n\r\s]` (`\s` is
space, tab, newline, carriage return, form feed, vertical tab). -/
def isPyWs (c : Char) : Bool :=
  c = ' ' || c = '\t' || c = '\n' || c = '\r' || c = '\x0c' || c = '\x0b'

/-- `re.sub` of a character class followed by `+` with a one-character
replacement: every maximal run of characters satisfying `p` becomes a single
`rep`.  The boolean argument tracks whether the previous character was in
the class (i.e. whether we are inside a run). -/
def collapseRuns (p : Char → Bool) (rep : Char) : Bool → List Char → List Char
  | _, [] => []
  | prevIn, c :: rest =>
    if p c then
      if prevIn then collapseRuns p rep true rest
      else rep :: collapseRuns p rep true rest
    else c :: collapseRuns p rep false rest

/-- Embeds `repl_unsave` (source lines 77-80): first delete every colon and
question mark (`re.sub` with an empty replacement), then collapse each run of
filesystem-unsafe characters to one underscore. -/
def repl_unsave (file_name : String) : String :=
  let tmp := file_name.data.filter (fun c => !(c == ':' || c == '?'))
  String.mk (collapseRuns isUnsave '_' false tmp)

/-- Embeds `re.sub` of the class `[\n\r\s]+` with a single space, used for
`info_nonl` in the `Broadcast` constructor and in `Broadcast.download`. -/
def collapseWs (s : String) : String :=
  String.mk (collapseRuns isPyWs ' ' false s.data)

/-! ### Number and date helpers (datetime semantics used by the source) -/

def digit? (c : Char) : Option Nat :=
  if c.isDigit then some (c.toNat - 48) else none

def d2 : List Char → Option (Nat × List Char)
  | a :: b :: rest => do
      let x ← digit? a
      let y ← digit? b
      some (10 * x + y, rest)
  | _ => none

def d4 : List Char → Option (Nat × List Char)
  | a :: b :: c :: e :: rest => do
      let x ← digit? a
      let y ← digit? b
      let z ← digit? c
      let w ← digit? e
      some (1000 * x + 100 * y + 10 * z + w, rest)
  | _ => none

def lit (ch : Char) : List Char → Option (List Char)
  | c :: rest => if c = ch then some rest else none
  | [] => none

def skipWs (l : List Char) : List Char := l.dropWhile isPyWs

def trimWsChars (l : List Char) : List Char :=
  ((l.dropWhile isPyWs).reverse.dropWhile isPyWs).reverse

/-- Python str.strip(): remove whitespace from both ends. -/
def pyStrip (s : String) : String := String.mk (trimWsChars s.data)

def digitsToNatAux : List Char → Nat → Option Nat
  | [], acc => some acc
  | c :: rest, acc => do
      let dgt ← digit? c
      digitsToNatAux rest (10 * acc + dgt)

def digitsToNat? (l : List Char) : Option Nat :=
  if l = [] then none else digitsToNatAux l 0

/-- Models `int(s)`: optional surrounding whitespace, optional sign, at least
one digit; `ValueError` is `none`. -/
def parseIntPy (s : String) : Option Int :=
  match trimWsChars s.data with
  | '-' :: ds => (digitsToNat? ds).map (fun n => -(n : Int))
  | '+' :: ds => (digitsToNat? ds).map (fun n => (n : Int))
  | ds => (digitsToNat? ds).map (fun n => (n : Int))

/-- Time-of-day value as constructed by the program: hour and minute only
(seconds and microseconds are always zero). -/
structure Time where
  hour : Nat
  minute : Nat

deriving DecidableEq, Repr

/-- `datetime.time` comparison on (hour, minute), lexicographic. -/
def Time.leb (a b : Time) : Bool :=
  Nat.blt a.hour b.hour || (a.hour == b.hour && Nat.ble a.minute b.minute)

/-- `datetime.time(h, m)`: raises ValueError unless the fields are in range. -/
def mkTimePy (h m : Nat) : Option Time :=
  if h ≤ 23 ∧ m ≤ 59 then some ⟨h, m⟩ else none

def isLeap (y : Nat) : Bool := (y % 4 == 0 && y % 100 != 0) || y % 400 == 0

def daysInMonth (y m : Nat) : Nat :=
  if m = 2 then (if isLeap y then 29 else 28)
  else if m = 4 ∨ m = 6 ∨ m = 9 ∨ m = 11 then 30 else 31

def daysBeforeMonth (y m : Nat) : Nat :=
  (List.range (m - 1)).foldl (fun acc i => acc + daysInMonth y (i + 1)) 0

def daysBeforeYear (y : Nat) : Nat :=
  365 * (y - 1) + (y - 1) / 4 - (y - 1) / 100 + (y - 1) / 400

/-- `date.toordinal()`: day 1 is 0001-01-01, proleptic Gregorian. -/
def toordinal (y m d : Nat) : Nat := daysBeforeYear y + daysBeforeMonth y m + d

/-- `date.weekday()`: Monday is 0, Sunday is 6. -/
def weekdayOf (y m d : Nat) : Nat := (toordinal y m d + 6) % 7

/-- `datetime.strptime(day_label + time, percent-d.m.Y H:M)`.  The catalog
zero-pads all fields, so the two- and four-digit widths are fixed; field
ranges are validated as in CPython and the whole string must be consumed. -/
def strptime_dmY_HM (s : String) : Option (Nat × Nat × Nat × Nat × Nat) := do
  let l := s.data
  let (d, l) ← d2 l
  let l ← lit '.' l
  let (m, l) ← d2 l
  let l ← lit '.' l
  let (y, l) ← d4 l
  let (h, l) ← d2 l
  let l ← lit ':' l
  let (mi, l) ← d2 l
  if l = [] ∧ 1 ≤ m ∧ m ≤ 12 ∧ 1 ≤ d ∧ d ≤ daysInMonth y m ∧ h ≤ 23 ∧ mi ≤ 59 then
    some (y, m, d, h, mi)
  else none

/-- Zero-padded decimal rendering, models strftime field directives. -/
def pad (w n : Nat) : String :=
  let s := toString n
  String.mk (List.replicate (w - s.length) '0') ++ s

/-! ### str.format with named placeholders (used for TargetDir, TargetName
and the Tag values).  The template is scanned once; the second argument is
`some key` while inside a field.  Doubled braces are literals; an unresolved
placeholder is a KeyError (`none`), like in Python. -/

def fmtAux (d : Dict) : List Char → Option String → Option (List Char)
  | [], none => some []
  | [], some _ => none
  | '\x7b' :: '\x7b' :: rest, none => (fmtAux d rest none).map ('\x7b' :: ·)
  | '\x7d' :: '\x7d' :: rest, none => (fmtAux d rest none).map ('\x7d' :: ·)
  | '\x7b' :: rest, none => fmtAux d rest (some "")
  | '\x7d' :: _, none => none
  | c :: rest, none => (fmtAux d rest none).map (c :: ·)
  | '\x7d' :: rest, some key => do
      let v ← dictLookup d key
      let t ← fmtAux d rest none
      some (v.data ++ t)
  | '\x7b' :: _, some _ => none
  | c :: rest, some key => fmtAux d rest (some (key.push c))

def strFormat (template : String) (d : Dict) : Option String :=
  (fmtAux d template.data none).map String.mk

/-! ### Configuration (INI_DEFAULTS and the section loop of Config.init) -/

/-- Source lines 57-74. -/
def INI_DEFAULTS : Dict := [
  ("TimeWindow", "00:00-24:00"),
  ("Days", "0,1,2,3,4,5,6"),
  ("TargetDir", "{DOWNLOAD_BASEDIR}/{SECTION}"),
  ("TargetName", "{Y}-{m}-{d} {H}h{M} Ö1 {title} {info_1line_limited}"),
  ("KeepOriginal", "False"),
  ("Quality", "1"),
  ("title", ".*"),
  ("info", ".*"),
  ("TagArtist", "Ö1"),
  ("TagAlbum", "{SECTION}"),
  ("TagTitle", "{Y}-{m}-{d} {H}:{M} {title} {info_1line} (id:{id})"),
  ("TagDate", "{Y}"),
  ("TagGenre", "Podcast"),
  ("TagComment", "{extended_info}")]

/-- `re.match` of the TimeWindow pattern: optional whitespace, two-digit
hour, colon, two-digit minute, dash with optional whitespace around it,
second time; re.match tolerates trailing characters. -/
def matchTimeWindow (s : String) : Option (Nat × Nat × Nat × Nat) := do
  let l := skipWs s.data
  let (h1, l) ← d2 l
  let l ← lit ':' l
  let (m1, l) ← d2 l
  let l := skipWs l
  let l ← lit '-' l
  let l := skipWs l
  let (h2, l) ← d2 l
  let l ← lit ':' l
  let (m2, _) ← d2 l
  some (h1, m1, h2, m2)

/-- `set(map(int, s.split(',')))` from source line 302.  The Python set is
only ever observed through membership, so the parsed list is kept as is. -/
def parseDaysPy (s : String) : Option (List Int) :=
  (s.splitOn ",").mapM parseIntPy

/-- A compiled subscription rule (the per-section dict built by
Config.init, source lines 287-302). -/
structure Rule where
  ini : Dict
  start_time : Time
  end_time : Time
  titleSearch : String → Bool
  days : List Int

/-- One iteration of the section loop of Config.init (source lines 287-302):
copy INI_DEFAULTS, update with the section entries, parse TimeWindow with
re.match (an AttributeError if the pattern does not match, since the source
calls group on the None result), build the two datetime.time values, compile
the title regex, parse Days.  `compileRegex` stands for
`re.compile(pattern, re.IGNORECASE).search` at the stdlib boundary; an
invalid pattern makes it `none`. -/
def compile_rule_section (compileRegex : String → Option (String → Bool))
    (sec : Dict) : Except String Rule :=
  let ini := dictUpdate INI_DEFAULTS sec
  match dictLookup ini "TimeWindow" with
  | none => .error "KeyError: TimeWindow"
  | some tw =>
    match matchTimeWindow tw with
    | none => .error "AttributeError: NoneType object has no attribute group"
    | some (h1, m1, h2, m2) =>
      match mkTimePy h1 m1 with
      | none => .error "ValueError: hour must be in 0..23"
      | some t1 =>
        match mkTimePy h2 m2 with
        | none => .error "ValueError: hour must be in 0..23"
        | some t2 =>
          match dictLookup ini "title" with
          | none => .error "KeyError: title"
          | some pat =>
            match compileRegex pat with
            | none => .error "re.error: invalid regular expression"
            | some search =>
              match dictLookup ini "Days" with
              | none => .error "KeyError: Days"
              | some ds =>
                match parseDaysPy ds with
                | none => .error "ValueError: invalid literal for int"
                | some days =>
                  .ok { ini := ini, start_time := t1, end_time := t2,
                        titleSearch := search, days := days }

/-! ### Broadcast records (class Broadcast, source lines 219-240) -/

structure Broadcast where
  data : Dict
  year : Nat
  month : Nat
  day : Nat
  hour : Nat
  minute : Nat
  weekday : Nat
  time : Time
  info_nonl : String
  full_dict : Dict

instance : Inhabited Broadcast :=
  ⟨{ data := [], year := 1, month := 1, day := 1, hour := 0, minute := 0,
     weekday := 0, time := ⟨0, 0⟩, info_nonl := "", full_dict := [] }⟩

/-- Broadcast.__init__: parse day_label + time with strptime (ParseError is
fatal), derive weekday, time-of-day and the formatted fields of full_dict.
The unused local info_l1 of the source needs the info key just like
info_nonl does, so a record without info raises here as in Python. -/
def mkBroadcast (d : Dict) : Except String Broadcast := do
  let day_label ← exceptOfOption "KeyError: day_label" (dictLookup d "day_label")
  let time_s ← exceptOfOption "KeyError: time" (dictLookup d "time")
  let (y, mo, dy, h, mi) ←
    exceptOfOption "ValueError: strptime" (strptime_dmY_HM (day_label ++ time_s))
  let info ← exceptOfOption "KeyError: info" (dictLookup d "info")
  let info_nonl := collapseWs info
  let full_dict := dictUpdate d [
    ("Y", pad 4 y), ("m", pad 2 mo), ("d", pad 2 dy),
    ("H", pad 2 h), ("M", pad 2 mi), ("S", pad 2 0),
    ("info_1line", info_nonl),
    ("info_1line_limited", info_nonl.take 120)]
  .ok { data := d, year := y, month := mo, day := dy, hour := h, minute := mi,
        weekday := weekdayOf y mo dy, time := ⟨h, mi⟩,
        info_nonl := info_nonl, full_dict := full_dict }

/-- Convenience constructor for concrete records in theorems. -/
def broadcastOf (d : Dict) : Broadcast := ((mkBroadcast d).toOption).getD default

/-- The match condition of find_broadcasts_of_interest (source lines
342-344), Python short-circuit order preserved: the title key is read (and a
missing key raises) only when the time window and weekday tests pass. -/
def ruleMatchesE (rule : Rule) (b : Broadcast) : Except String Bool :=
  if Time.leb rule.start_time b.time && Time.leb b.time rule.end_time then
    if rule.days.contains (Int.ofNat b.weekday) then
      match dictLookup b.data "title" with
      | some t => .ok (rule.titleSearch t)
      | none => .error "KeyError: title"
    else .ok false
  else .ok false

/-- The match condition as a boolean (false also on a raised KeyError). -/
def matchesOk (rule : Rule) (b : Broadcast) : Bool :=
  match ruleMatchesE rule b with
  | .ok true => true
  | _ => false

/-! ### Claim C7 -/

/-- The record of end-to-end scenario A of the spec. -/
def scenarioARecord : Dict :=
  [("day_label", "01.11.2014"), ("time", "09:05"), ("title", "Journal"),
   ("info", "News"), ("id", "386000"), ("url_stream", "http://x/s.mp3")]

def scenarioABroadcast : Broadcast := broadcastOf scenarioARecord

/-- The rule of end-to-end scenario A: window 08:00-10:00, weekdays Monday
to Friday; the title pattern is modelled by the most permissive search so
that the non-match is forced by the weekday filter alone. -/
def scenarioARule : Rule :=
  { ini := INI_DEFAULTS, start_time := ⟨8, 0⟩, end_time := ⟨10, 0⟩,
    titleSearch := fun _ => true, days := [0, 1, 2, 3, 4] }

/-! ### Enrichment (get_broadcast_info_extended, source lines 187-202) -/

def BASE_URL_DETAIL : String := "http://oe1.orf.at/programm/"

/-- The parts of a detail page that the source reads after the BeautifulSoup
parse: the stripped strings of each paragraph of the div with class
textbox-wide (`none` when there is no such div) and the stripped strings of
the div with class postarticle. -/
structure DetailPage where
  textboxWide : Option (List (List String))
  postarticle : Option (List String)

/-- get_broadcast_info_extended: `fetchPage` stands for url_read plus the
BeautifulSoup parse (a transport error is `.error`).  When the page has no
textbox-wide div, `soup.find` returns None and the findAll call raises an
AttributeError, which no caller catches.  The paragraph list is sliced
[1:-1]; a postarticle div appends a ten-underscore separator and its
strings; the collected lines are joined with CR LF. -/
def get_broadcast_info_extended (fetchPage : String → Except String DetailPage)
    (url : String) : Except String String := do
  let page ← fetchPage url
  match page.textboxWide with
  | none => .error "AttributeError: NoneType object has no attribute findAll"
  | some paras =>
    let mid := (paras.drop 1).dropLast
    let lines1 := mid.flatten
    let lines2 := match page.postarticle with
      | some strs => lines1 ++ ["__________"] ++ strs
      | none => lines1
    .ok (String.intercalate "\r\n" lines2)

/-! ### The matcher (Broadcasts.find_broadcasts_of_interest, lines 333-349) -/

/-- One value of the broadcasts_of_interest dict: the rule and the set of
matched records.  The Python set holds Broadcast objects and hashes them by
object identity; it is modelled as the list of positions of the records in
Broadcasts.broadcasts, kept in insertion order without duplicates. -/
structure InterestEntry where
  rule : Rule
  broadcasts : List Nat

/-- The state touched by find_broadcasts_of_interest: the Broadcast objects
(their positions serve as object identities), the broadcasts_of_interest
dict, and an observation log recording the url of each call to
get_broadcast_info_extended. -/
structure MatcherState where
  broadcasts : List Broadcast
  interest : List (String × InterestEntry)
  enrichLog : List String

/-- set.add keyed by object identity. -/
def insertIdx (i : Nat) (l : List Nat) : List Nat :=
  if l.contains i then l else l ++ [i]

def addInterest (st : MatcherState) (sec : String) (i : Nat) : MatcherState :=
  { st with interest := st.interest.map (fun p =>
      if p.1 = sec then (p.1, { p.2 with broadcasts := insertIdx i p.2.broadcasts })
      else p) }

/-- The inner loop of find_broadcasts_of_interest for one rule: on a match,
fetch the extended info (an uncaught exception propagates and aborts the
pass), strip it, fall back to the info field when the stripped text is
empty, assign full_dict[extended_info], then add the record to the result
set of the section (source lines 341-349). -/
def processIdx (fetchPage : String → Except String DetailPage) (sec : String)
    (rule : Rule) : List Nat → MatcherState → Except String MatcherState
  | [], st => .ok st
  | i :: rest, st =>
    match st.broadcasts.get? i with
    | none => processIdx fetchPage sec rule rest st
    | some b =>
      match ruleMatchesE rule b with
      | .error e => .error e
      | .ok false => processIdx fetchPage sec rule rest st
      | .ok true => do
        let bid ← exceptOfOption "KeyError: id" (dictLookup b.full_dict "id")
        let ext ← get_broadcast_info_extended fetchPage (BASE_URL_DETAIL ++ bid)
        let v ← if pyStrip ext = "" then
            exceptOfOption "KeyError: info" (dictLookup b.full_dict "info")
          else .ok (pyStrip ext)
        let b' := { b with full_dict := dictSet b.full_dict "extended_info" v }
        let st' : MatcherState :=
          { st with broadcasts := st.broadcasts.set i b',
                    enrichLog := st.enrichLog ++ [BASE_URL_DETAIL ++ bid] }
        processIdx fetchPage sec rule rest (addInterest st' sec i)

/-- The loop over config.broadcasts_rules.items(): create the section entry
when absent, then scan every broadcast. -/
def findGo (fetchPage : String → Except String DetailPage) :
    List (String × Rule) → MatcherState → Except String MatcherState
  | [], st => .ok st
  | (sec, rule) :: rest, st =>
    let st1 := if st.interest.any (fun p => p.1 == sec) then st
      else { st with interest := st.interest ++ [(sec, { rule := rule, broadcasts := [] })] }
    match processIdx fetchPage sec rule (List.range st1.broadcasts.length) st1 with
    | .error e => .error e
    | .ok st2 => findGo fetchPage rest st2

/-- Broadcasts.find_broadcasts_of_interest (source lines 333-349); the rule
list stands for config.broadcasts_rules.items() in insertion order. -/
def find_broadcasts_of_interest (fetchPage : String → Except String DetailPage)
    (rules : List (String × Rule)) (st : MatcherState) : Except String MatcherState :=
  findGo fetchPage rules st

/-- The ids (full_dict id values) of the records in the result set of one
section, in set insertion order. -/
def sectionIds (st : MatcherState) (sec : String) : List String :=
  match st.interest.find? (fun p => p.1 == sec) with
  | none => []
  | some p => p.2.broadcasts.filterMap (fun i =>
      (st.broadcasts.get? i).bind (fun b => dictLookup b.full_dict "id"))

/-! ### Concrete fixtures shared by the matcher claims -/

def c1Record : Dict :=
  [("day_label", "01.11.2014"), ("time", "09:05"), ("title", "Journal"),
   ("info", "News"), ("id", "X1"), ("url_stream", "u")]

/-- A rule matching everything (full-day window, all weekdays, permissive
title search). -/
def c1Rule : Rule :=
  { ini := INI_DEFAULTS, start_time := ⟨0, 0⟩, end_time := ⟨23, 59⟩,
    titleSearch := fun _ => true, days := [0, 1, 2, 3, 4, 5, 6] }

/-- A detail page whose text strips to nothing, triggering the rawInfo
fallback. -/
def emptyPage : DetailPage := { textboxWide := some [], postarticle := none }

/-- Two distinct record objects carrying the same catalog id. -/
def c1State : MatcherState :=
  { broadcasts := [broadcastOf c1Record, broadcastOf c1Record],
    interest := [], enrichLog := [] }

/-- The concrete matcher result used by the C1 witness. -/
def c1Result : MatcherState :=
  (find_broadcasts_of_interest (fun _ => .ok emptyPage) [("R", c1Rule)] c1State).toOption.getD
    { broadcasts := [], interest := [], enrichLog := [] }

/-! ### Claim C5, amended: one enrichment per (rule, record) match -/

/-- The record fields the match condition reads; enrichment only rewrites
full_dict, so this projection is invariant during a matcher run. -/
def core (b : Broadcast) : Dict × Time × Nat := (b.data, b.time, b.weekday)

/-- The match condition as a function of the core projection alone. -/
def matchesCore (rule : Rule) (c : Dict × Time × Nat) : Bool :=
  if Time.leb rule.start_time c.2.1 && Time.leb c.2.1 rule.end_time then
    if rule.days.contains (Int.ofNat c.2.2) then
      match dictLookup c.1 "title" with
      | some t => rule.titleSearch t
      | none => false
    else false
  else false

/-- Whether the record at position i matches (false when out of bounds). -/
def matchAt (bs : List Broadcast) (rule : Rule) (i : Nat) : Bool :=
  ((bs.get? i).map (matchesOk rule)).getD false

/-- Total number of (rule, record) pairs whose match condition holds. -/
def matchCount (rules : List (String × Rule)) (bs : List Broadcast) : Nat :=
  (rules.map (fun p => bs.countP (fun b => matchesOk p.2 b))).sum

def c5Rules : List (String × Rule) := [("R1", c1Rule), ("R2", c1Rule)]

def c5State : MatcherState :=
  { broadcasts := [broadcastOf c1Record], interest := [], enrichLog := [] }

def c5Result : MatcherState :=
  (find_broadcasts_of_interest (fun _ => .ok emptyPage) c5Rules c5State).toOption.getD
    { broadcasts := [], interest := [], enrichLog := [] }

/-! ### The acquisition pipeline (download_all_interesting and helpers)

The filesystem is a set of file and directory paths; every mutation of the
outside world is also recorded as an event so that frame properties can be
stated.  Oracles in `Env` stand for the outcome of urllib.request and the
ffmpeg process.  An uncaught Python exception sets the `crashed` field and
every later step is skipped, preserving the events emitted so far. -/

structure FS where
  files : List String
  dirs : List String

deriving DecidableEq, Repr

def FS.isFile (fs : FS) (p : String) : Bool := fs.files.contains p

def FS.isDir (fs : FS) (p : String) : Bool := fs.dirs.contains p

def FS.addFile (fs : FS) (p : String) : FS :=
  if fs.files.contains p then fs else { fs with files := fs.files ++ [p] }

/-- os.makedirs: parent directories are not tracked separately because the
program only ever tests the exact TargetDir path. -/
def FS.addDir (fs : FS) (p : String) : FS :=
  if fs.dirs.contains p then fs else { fs with dirs := fs.dirs ++ [p] }

def FS.eraseFile (fs : FS) (p : String) : FS :=
  { fs with files := fs.files.filter (fun q => !(q == p)) }

inductive FsEvent where
  | mkdir (path : String)
  | fileWritten (path : String)
  | fileRemoved (path : String)
  | tagWrite (path : String)
  | transcodeRun (input output : String)

deriving DecidableEq, Repr

/-- CLI flags (ARGS), the platform constants, and outcome oracles for the
external collaborators. -/
structure Env where
  dry_run : Bool
  overwrite : Bool
  he2 : Bool
  script_dir : String
  download_basedir : String
  downloadOk : String → String → Bool
  partDownloaded : String → String → Bool
  ffmpegRun : String → String → Int → Bool → Int × Bool

/-- The state threaded through download_all_interesting: the filesystem, the
event log, the two report lists of the Broadcasts object, and the pending
uncaught exception if one was raised. -/
structure DlState where
  fs : FS
  events : List FsEvent
  actually_downloaded : List String
  actually_converted : List String
  crashed : Option String

deriving DecidableEq, Repr

def crash (st : DlState) (msg : String) : DlState := { st with crashed := some msg }

def endsWithSlash (a : String) : Bool := a.data.getLast? == some '/'

/-- os.path.join for the shapes the program produces (the file component
comes from repl_unsave, so it never begins with a separator). -/
def pathJoin (a b : String) : String :=
  if a = "" then b else if endsWithSlash a then a ++ b else a ++ "/" ++ b

/-- strftime of the dt field computed inside Broadcast.download (the source
format swaps day and month: Y-d-m--H-M). -/
def fmtDt (b : Broadcast) : String :=
  pad 4 b.year ++ "-" ++ pad 2 b.day ++ "-" ++ pad 2 b.month ++ "--"
    ++ pad 2 b.hour ++ "-" ++ pad 2 b.minute

/-- str.rstrip of dots. -/
def rstripDots (s : String) : String :=
  String.mk ((s.data.reverse.dropWhile (fun c => c == '.')).reverse)

/-- Broadcast.download (source lines 250-271).  The pipeline always passes a
name, but the default-name string s is computed eagerly before the name
check, so its KeyError on a record without a title field is kept.  On an
HTTPError or ContentTooShortError any partial file is removed and the
exception is swallowed: the batch continues. -/
def Broadcast.download (env : Env) (b : Broadcast) (name : String)
    (st : DlState) : DlState :=
  if st.crashed.isSome then st else
  match dictLookup b.data "url_stream" with
  | none => crash st "KeyError: url_stream"
  | some url =>
    match strFormat "{dt} {title} {info_nonl}"
        (dictUpdate b.data [("dt", fmtDt b), ("info_nonl", b.info_nonl)]) with
    | none => crash st "KeyError: download name template"
    | some s0 =>
      let _s := rstripDots s0
      if ¬ env.dry_run then
        if ¬ st.fs.isFile name || env.overwrite then
          if env.downloadOk url name then
            { st with fs := st.fs.addFile name,
                      events := st.events ++ [FsEvent.fileWritten name] }
          else
            let st1 := if env.partDownloaded url name then
                { st with fs := st.fs.addFile name,
                          events := st.events ++ [FsEvent.fileWritten name] }
              else st
            if st1.fs.isFile name then
              { st1 with fs := st1.fs.eraseFile name,
                         events := st1.events ++ [FsEvent.fileRemoved name] }
            else st1
        else st
      else st

/-- convert_to_m4a (source lines 99-138).  The only caller always passes
conv_fn and no length, which is modelled directly.  The Option Int is the
Python return value: -1 for a missing input file, None (bare return) when
the target already exists and overwrite is off, 0 in a dry run, otherwise
the ffmpeg returncode.  The target-exists comparison reads the global name
overwrite_existing which is defined nowhere in the program: a NameError. -/
def convert_to_m4a (env : Env) (st : DlState) (media_fn : String) (quality : Int)
    (conv_fn : String) (aac_he_v2 : Bool) : DlState × Option Int :=
  if st.crashed.isSome then (st, none) else
  if ¬ st.fs.isFile media_fn then (st, some (-1))
  else if st.fs.isFile conv_fn then (crash st "NameError: overwrite_existing", none)
  else if env.dry_run then (st, some 0)
  else
    let r := env.ffmpegRun media_fn conv_fn quality aac_he_v2
    ({ st with
        fs := if r.2 then st.fs.addFile conv_fn else st.fs,
        events := st.events ++ [FsEvent.transcodeRun media_fn conv_fn]
          ++ (if r.2 then [FsEvent.fileWritten conv_fn] else []) },
      some r.1)

/-- tag_media_file (source lines 83-96): a missing file only logs a warning;
otherwise mutagen writes the fields (per-field failures are tolerated) and
saves, one file mutation. -/
def tag_media_file (st : DlState) (media_fn : String)
    (tag_dict : List (String × String)) : DlState :=
  if st.crashed.isSome then st else
  if ¬ st.fs.isFile media_fn then st
  else { st with events := st.events ++ [FsEvent.tagWrite media_fn] }

def startsWithTag (s : String) : Bool :=
  match s.data with
  | 'T' :: 'a' :: 'g' :: _ => true
  | _ => false

def lowerChar (c : Char) : Char :=
  if 'A' ≤ c ∧ c ≤ 'Z' then Char.ofNat (c.toNat + 32) else c

/-- The Tag* loop of download_all_interesting (source lines 392-396): each
ini key starting with Tag yields one lowercased tag field rendered against
the name dict; a missing placeholder is a KeyError. -/
def renderTags (ini : Dict) (d : Dict) : Option (List (String × String)) :=
  (ini.filter (fun p => startsWithTag p.1)).mapM
    (fun p => (strFormat p.2 d).map
      (fun v => (String.mk ((p.1.data.drop 3).map lowerChar), v)))

/-- The download block of download_all_interesting (source lines 376-383):
runs only when neither the original nor the converted file exists and this
is not a dry run.  The path is appended to actually_downloaded right after
Broadcast.download returns, whether or not the transfer succeeded. -/
def downloadStage (env : Env) (b : Broadcast) (full_download_fn full_conv_fn : String)
    (st : DlState) : DlState × Bool :=
  if st.crashed.isSome then (st, false) else
  if ¬ st.fs.isFile full_download_fn ∧ ¬ env.dry_run ∧ ¬ st.fs.isFile full_conv_fn then
    let st1 := Broadcast.download env b full_download_fn st
    if st1.crashed.isSome then (st1, true)
    else ({ st1 with
        actually_downloaded := st1.actually_downloaded ++ [full_download_fn] }, true)
  else (st, false)

/-- The convert block (source lines 385-390): only a return value of 0 adds
the converted path to the report list. -/
def convertStage (env : Env) (convert : Bool) (rule : Rule)
    (full_download_fn full_conv_fn : String) (st : DlState) : DlState :=
  if st.crashed.isSome then st else
  if convert ∧ ¬ st.fs.isFile full_conv_fn then
    match dictLookup rule.ini "Quality" with
    | none => crash st "KeyError: Quality"
    | some qs =>
      match parseIntPy qs with
      | none => crash st "ValueError: invalid literal for int"
      | some q =>
        let r := convert_to_m4a env st full_download_fn q full_conv_fn env.he2
        if r.2 = some 0 then
          { r.1 with actually_converted := r.1.actually_converted ++ [full_conv_fn] }
        else r.1
  else st

/-- The tag block (source lines 391-398): runs only when conversion is
enabled and a download ran in this same iteration. -/
def tagStage (env : Env) (tag convert : Bool) (actually_downloaded : Bool) (rule : Rule)
    (name_dict : Dict) (full_conv_fn : String) (st : DlState) : DlState :=
  if st.crashed.isSome then st else
  if tag ∧ convert ∧ actually_downloaded then
    match renderTags rule.ini name_dict with
    | none => crash st "KeyError: tag template"
    | some tag_dict => tag_media_file st full_conv_fn tag_dict
  else st

/-- The retention block (source lines 399-407): delete the original unless
KeepOriginal is the string True, gated on dry-run but not on the result of
the conversion.  A failing os.remove would only log a warning; in the
explicit-filesystem model removal always succeeds. -/
def retentionStage (env : Env) (rule : Rule) (full_download_fn : String)
    (st : DlState) : DlState :=
  if st.crashed.isSome then st else
  match dictLookup rule.ini "KeepOriginal" with
  | none => crash st "KeyError: KeepOriginal"
  | some ko =>
    if ko ≠ "True" ∧ ¬ env.dry_run then
      if ¬ env.dry_run ∧ st.fs.isFile full_download_fn then
        { st with fs := st.fs.eraseFile full_download_fn,
                  events := st.events ++ [FsEvent.fileRemoved full_download_fn] }
      else st
    else st

/-- One (section, rule, broadcast) iteration of download_all_interesting
(source lines 355-407): naming, directory creation, then the four stages in
source order. -/
def processItem (env : Env) (convert tag : Bool) (sec : String) (rule : Rule)
    (b : Broadcast) (st : DlState) : DlState :=
  if st.crashed.isSome then st else
  let name_dict := dictUpdate b.full_dict
    [("SCRIPTDIR", env.script_dir), ("DOWNLOAD_BASEDIR", env.download_basedir),
     ("SECTION", sec)]
  match dictLookup rule.ini "TargetName" with
  | none => crash st "KeyError: TargetName"
  | some tn =>
    match strFormat tn name_dict with
    | none => crash st "KeyError: TargetName placeholder"
    | some rendered =>
      let download_fn_noext := repl_unsave rendered
      let download_fn := download_fn_noext ++ ".mp3"
      match dictLookup rule.ini "TargetDir" with
      | none => crash st "KeyError: TargetDir"
      | some td =>
        match strFormat td name_dict with
        | none => crash st "KeyError: TargetDir placeholder"
        | some download_folder =>
          let st2 := if ¬ env.dry_run ∧ ¬ st.fs.isDir download_folder
              ∧ ¬ st.fs.isFile download_folder
            then { st with fs := st.fs.addDir download_folder,
                           events := st.events ++ [FsEvent.mkdir download_folder] }
            else st
          let full_download_fn := pathJoin download_folder download_fn
          let full_conv_fn := pathJoin download_folder (download_fn_noext ++ ".m4a")
          let dl := downloadStage env b full_download_fn full_conv_fn st2
          let st3 := convertStage env convert rule full_download_fn full_conv_fn dl.1
          let st4 := tagStage env tag convert dl.2 rule name_dict full_conv_fn st3
          retentionStage env rule full_download_fn st4

def strLeb : List Char → List Char → Bool
  | [], _ => true
  | _ :: _, [] => false
  | a :: as, b :: bs => if a < b then true else if b < a then false else strLeb as bs

def insertSorted (x : String × Rule × List Broadcast) :
    List (String × Rule × List Broadcast) → List (String × Rule × List Broadcast)
  | [] => [x]
  | y :: ys => if strLeb x.1.data y.1.data then x :: y :: ys else y :: insertSorted x ys

/-- sorted(self.broadcasts_of_interest.items()): section names are unique
(configparser rejects duplicate sections), so sorting by key suffices. -/
def sortBySection :
    List (String × Rule × List Broadcast) → List (String × Rule × List Broadcast)
  | [] => []
  | x :: xs => insertSorted x (sortBySection xs)

/-- download_all_interesting (source lines 351-407): process rule groups in
sorted section order; within a group iterate the matched records (the set
iteration order is the insertion order of the model). -/
def download_all_interesting (env : Env) (convert tag : Bool)
    (interest : List (String × Rule × List Broadcast)) (st : DlState) : DlState :=
  (sortBySection interest).foldl
    (fun acc g => g.2.2.foldl
      (fun acc2 b => processItem env convert tag g.1 g.2.1 b acc2) acc)
    st

/-! ### Concrete fixtures for the pipeline claims -/

/-- A rule with constant naming templates so the item maps to out/file.mp3
and out/file.m4a; KeepOriginal keeps the default False. -/
def c2Rule : Rule :=
  { ini := [("TimeWindow", "00:00-23:59"), ("Days", "0,1,2,3,4,5,6"),
            ("TargetDir", "out"), ("TargetName", "file"),
            ("KeepOriginal", "False"), ("Quality", "1")],
    start_time := ⟨0, 0⟩, end_time := ⟨23, 59⟩,
    titleSearch := fun _ => true, days := [0, 1, 2, 3, 4, 5, 6] }

/-- Real run, download succeeds, ffmpeg exits 1 writing no output. -/
def c2Env : Env :=
  { dry_run := false, overwrite := false, he2 := false, script_dir := ".",
    download_basedir := "base",
    downloadOk := fun _ _ => true, partDownloaded := fun _ _ => false,
    ffmpegRun := fun _ _ _ _ => (1, false) }

def dlInit : DlState :=
  { fs := { files := [], dirs := [] }, events := [], actually_downloaded := [],
    actually_converted := [], crashed := none }

/-! ### Claim C6: counterexample to downloaded-list-means-success -/

/-- Real run, transport fails leaving a partial file. -/
def c6Env : Env :=
  { dry_run := false, overwrite := false, he2 := false, script_dir := ".",
    download_basedir := "base",
    downloadOk := fun _ _ => false, partDownloaded := fun _ _ => true,
    ffmpegRun := fun _ _ _ _ => (0, true) }

/-- A state as left by a successful download of out/file.mp3. -/
def c2MidState : DlState :=
  { fs := { files := ["out/file.mp3"], dirs := ["out"] },
    events := [FsEvent.mkdir "out", FsEvent.fileWritten "out/file.mp3"],
    actually_downloaded := ["out/file.mp3"], actually_converted := [],
    crashed := none }

/-- Dry-run environment for the C8 witness. -/
def c8Env : Env :=
  { dry_run := true, overwrite := false, he2 := false, script_dir := ".",
    download_basedir := "base",
    downloadOk := fun _ _ => true, partDownloaded := fun _ _ => false,
    ffmpegRun := fun _ _ _ _ => (0, true) }

/-- A pre-existing original file on disk. -/
def c8State : DlState :=
  { fs := { files := ["out/file.mp3"], dirs := ["out"] }, events := [],
    actually_downloaded := [], actually_converted := [], crashed := none }

/-! ## Theorems -/

/-! ### Lemmas about `collapseRuns` and `repl_unsave` (claim C9) -/

theorem mem_collapseRuns {p : Char → Bool} {rep : Char} :
    ∀ {prev : Bool} {l : List Char} {c : Char},
      c ∈ collapseRuns p rep prev l → c = rep ∨ (c ∈ l ∧ p c = false) := by
  intro prev l
  induction l generalizing prev with
  | nil => intro c h; simp [collapseRuns] at h
  | cons a rest ih =>
    intro c h
    cases hpa : p a with
    | true =>
      cases prev with
      | true =>
        simp only [collapseRuns, hpa, if_true] at h
        rcases ih h with h' | h'
        · exact Or.inl h'
        · exact Or.inr ⟨List.mem_cons_of_mem _ h'.1, h'.2⟩
      | false =>
        simp only [collapseRuns, hpa, if_true, Bool.false_eq_true, if_false,
          List.mem_cons] at h
        rcases h with h' | h'
        · exact Or.inl h'
        · rcases ih h' with h'' | h''
          · exact Or.inl h''
          · exact Or.inr ⟨List.mem_cons_of_mem _ h''.1, h''.2⟩
    | false =>
      simp only [collapseRuns, hpa, Bool.false_eq_true, if_false, List.mem_cons] at h
      rcases h with h' | h'
      · subst h'
        exact Or.inr ⟨List.mem_cons_self _ _, hpa⟩
      · rcases ih h' with h'' | h''
        · exact Or.inl h''
        · exact Or.inr ⟨List.mem_cons_of_mem _ h''.1, h''.2⟩

theorem collapseRuns_of_no_match {p : Char → Bool} {rep : Char} {l : List Char}
    (h : ∀ c ∈ l, p c = false) : collapseRuns p rep false l = l := by
  induction l with
  | nil => rfl
  | cons a rest ih =>
    have ha : p a = false := h a (List.mem_cons_self _ _)
    simp only [collapseRuns, ha, Bool.false_eq_true, if_false, List.cons.injEq, true_and]
    exact ih (fun c hc => h c (List.mem_cons_of_mem _ hc))

theorem mem_repl_unsave_not_unsave {s : String} {c : Char}
    (h : c ∈ (repl_unsave s).data) : isUnsave c = false := by
  simp only [repl_unsave, String.mk] at h
  rcases mem_collapseRuns h with h' | h'
  · subst h'; decide
  · exact h'.2

/-- C9: `repl_unsave` is idempotent and its output contains none of the nine
unsafe characters (in particular no colon and no question mark). -/
theorem c9_repl_unsave_idempotent_and_clean (s : String) (c : Char) :
    repl_unsave (repl_unsave s) = repl_unsave s ∧
    (c ∈ (repl_unsave s).data → isUnsave c = false) := by
  constructor
  · have hclean : ∀ c ∈ (repl_unsave s).data, isUnsave c = false := fun c hc =>
      mem_repl_unsave_not_unsave hc
    have hfilter : (repl_unsave s).data.filter (fun c => !(c == ':' || c == '?'))
        = (repl_unsave s).data := by
      apply List.filter_eq_self.mpr
      intro c hc
      have h1 : isUnsave c = false := hclean c hc
      have h2 : c ≠ ':' := by
        intro hcq; subst hcq; simp [isUnsave, unsaveChars] at h1
      have h3 : c ≠ '?' := by
        intro hcq; subst hcq; simp [isUnsave, unsaveChars] at h1
      simp [h2, h3]
    show String.mk (collapseRuns isUnsave '_' false
        ((repl_unsave s).data.filter (fun c => !(c == ':' || c == '?')))) = repl_unsave s
    rw [hfilter, collapseRuns_of_no_match (fun c hc => mem_repl_unsave_not_unsave hc)]
  · exact fun h => mem_repl_unsave_not_unsave h

/-- Witness for C9 at a concrete input, with the membership hypothesis of
the second part discharged by evaluation. -/
theorem c9_witness :
    repl_unsave (repl_unsave "a:b?c\\d//e") = repl_unsave "a:b?c\\d//e" ∧
    isUnsave '_' = false :=
  ⟨(c9_repl_unsave_idempotent_and_clean "a:b?c\\d//e" '_').1,
   (c9_repl_unsave_idempotent_and_clean "a:b?c\\d//e" '_').2 (by decide)⟩

/-! ### Claim C3 -/

/-- C3: the claim says rule compilation substitutes the documented defaults
and then succeeds, failing only on an invalid time range, weekday list or
title regex.  The defaults are substituted, but compilation of a section
with no TimeWindow key then crashes on the default value 00:00-24:00
itself: datetime.time rejects hour 24, so the run dies with a ValueError
before any fetch.  The theorem evaluates the compilation of an entirely
empty section (all defaults) for every regex compiler. -/
theorem c3_default_section_crashes
    (compileRegex : String → Option (String → Bool)) :
    compile_rule_section compileRegex [] =
      .error "ValueError: hour must be in 0..23" := rfl

/-- C7: the match predicate is exactly the conjunction of the inclusive time
window test, weekday membership and the title search, and the scenario A
record (2014-11-01 is a Saturday, weekday 5, at 09:05) does not match the
weekday-filtered rule. -/
theorem c7_match_predicate :
    (∀ (rule : Rule) (b : Broadcast) (t : String),
        dictLookup b.data "title" = some t →
        ruleMatchesE rule b =
          .ok ((Time.leb rule.start_time b.time && Time.leb b.time rule.end_time)
            && (rule.days.contains (Int.ofNat b.weekday) && rule.titleSearch t))) ∧
    ((do
        let b ← mkBroadcast scenarioARecord
        ruleMatchesE scenarioARule b) = Except.ok false) := by
  constructor
  · intro rule b t ht
    unfold ruleMatchesE
    rw [ht]
    cases h1 : (Time.leb rule.start_time b.time && Time.leb b.time rule.end_time) with
    | false => simp [h1]
    | true =>
      cases h2 : rule.days.contains (Int.ofNat b.weekday) with
      | false => simp [h2]
      | true => simp [h2]
  · decide

/-- Witness for C7 at the concrete scenario record, with the hypothesis
(title key present) discharged by evaluation. -/
theorem c7_witness :
    ruleMatchesE scenarioARule scenarioABroadcast =
      .ok ((Time.leb scenarioARule.start_time scenarioABroadcast.time &&
            Time.leb scenarioABroadcast.time scenarioARule.end_time)
        && (scenarioARule.days.contains (Int.ofNat scenarioABroadcast.weekday)
            && scenarioARule.titleSearch "Journal")) :=
  c7_match_predicate.1 scenarioARule scenarioABroadcast "Journal" (by decide)

/-! ### Claim C1: counterexample to dedup by id -/

/-- Counterexample for C1: the result set is a Python set of Broadcast
objects, hashed by object identity, not by the id field.  Two distinct
records sharing id X1 both match, and both enter the result set of rule R:
the list of ids in the set is [X1, X1], so the same record id does appear
twice in one result set. -/
theorem c1_counterexample :
    (find_broadcasts_of_interest (fun _ => .ok emptyPage) [("R", c1Rule)] c1State).map
      (fun st => sectionIds st "R") = .ok ["X1", "X1"] ∧
    ¬ (["X1", "X1"] : List String).Nodup := by
  constructor <;> decide

/-! ### Claim C4: counterexample to non-fatal enrichment failure -/

/-- Counterexample for C4: the enrichment fetch sits in the matcher loop
with no exception handler, so a transport failure aborts the whole matching
pass instead of falling back to the raw info: the matcher run evaluates to
the propagated error, and no record or rule after the failing one is
processed. -/
theorem c4_counterexample :
    (find_broadcasts_of_interest (fun _ => .error "HTTPError") [("R", c1Rule)]
        { broadcasts := [broadcastOf c1Record], interest := [], enrichLog := [] }).map
      (fun st => st.enrichLog) = .error "HTTPError" := by decide

/-! ### Claim C5: counterexample to enrich-at-most-once -/

/-- Counterexample for C5: there is no populated-already skip in the source;
the enrichment assignment runs on every positive match, so one record
matching two rules is enriched twice (the claim says the fetch is triggered
one time and skipped when already populated). -/
theorem c5_counterexample :
    (find_broadcasts_of_interest (fun _ => .ok emptyPage)
        [("R1", c1Rule), ("R2", c1Rule)]
        { broadcasts := [broadcastOf c1Record], interest := [], enrichLog := [] }).map
      (fun st => st.enrichLog.length) = .ok 2 := by decide

/-! ### Dictionary lemmas -/

theorem dictLookup_none_of_not_any {d : Dict} {k : String}
    (h : d.any (fun p => p.1 == k) = false) : dictLookup d k = none := by
  induction d with
  | nil => rfl
  | cons p rest ih =>
    obtain ⟨k0, v0⟩ := p
    simp only [List.any_cons, Bool.or_eq_false_iff] at h
    simp only [dictLookup]
    rw [if_neg, ih h.2]
    intro he
    rw [he] at h
    simp at h

theorem dictLookup_append_of_none {d1 d2 : Dict} {k : String}
    (h : dictLookup d1 k = none) :
    dictLookup (d1 ++ d2) k = dictLookup d2 k := by
  induction d1 with
  | nil => rfl
  | cons p rest ih =>
    obtain ⟨k0, v0⟩ := p
    simp only [dictLookup] at h ⊢
    by_cases hk : k0 = k
    · simp [hk] at h
    · rw [if_neg hk] at h ⊢
      exact ih h

theorem dictLookup_mapset_of_any {k v : String} :
    ∀ {d : Dict}, d.any (fun p => p.1 == k) = true →
      dictLookup (d.map (fun p => if p.1 = k then (k, v) else p)) k = some v := by
  intro d
  induction d with
  | nil => intro h; simp at h
  | cons p rest ih =>
    intro h
    obtain ⟨k0, v0⟩ := p
    by_cases hk : k0 = k
    · subst hk
      simp only [List.map_cons, if_pos rfl]
      simp [dictLookup]
    · simp only [List.any_cons] at h
      have hrest : rest.any (fun p => p.1 == k) = true := by
        rcases Bool.or_eq_true_iff.mp h with h' | h'
        · exact absurd (by simpa using h') hk
        · exact h'
      simp only [List.map_cons]
      rw [if_neg hk]
      simp only [dictLookup]
      rw [if_neg hk]
      exact ih hrest

/-- Assignment then lookup of the same key yields the assigned value. -/
theorem dictLookup_dictSet (d : Dict) (k v : String) :
    dictLookup (dictSet d k v) k = some v := by
  unfold dictSet
  cases h : d.any (fun p => p.1 == k) with
  | true => rw [if_pos rfl]; exact dictLookup_mapset_of_any h
  | false =>
    simp only [Bool.false_eq_true, if_false]
    rw [dictLookup_append_of_none (dictLookup_none_of_not_any h)]
    simp [dictLookup]

/-! ### Claim C1, amended part: no duplicates by object identity -/

theorem insertIdx_nodup {i : Nat} {l : List Nat} (h : l.Nodup) :
    (insertIdx i l).Nodup := by
  unfold insertIdx
  cases hc : l.contains i with
  | true => rw [if_pos rfl]; exact h
  | false =>
    rw [if_neg (by simp)]
    rw [List.nodup_append]
    exact ⟨h, List.nodup_singleton i, List.disjoint_singleton.mpr (by simpa using hc)⟩

/-- The per-section result sets remain duplicate-free under addInterest. -/
theorem addInterest_nodup {st : MatcherState} {sec : String} {i : Nat}
    (h : ∀ p ∈ st.interest, p.2.broadcasts.Nodup) :
    ∀ p ∈ (addInterest st sec i).interest, p.2.broadcasts.Nodup := by
  intro p hp
  simp only [addInterest, List.mem_map] at hp
  obtain ⟨q, hq, hpq⟩ := hp
  by_cases hqs : q.1 = sec
  · rw [if_pos hqs] at hpq
    subst hpq
    exact insertIdx_nodup (h q hq)
  · rw [if_neg hqs] at hpq
    subst hpq
    exact h q hq

theorem except_bind_ok {ε α β : Type} (a : α) (f : α → Except ε β) :
    (Except.ok a >>= f) = f a := rfl

theorem except_bind_error {ε α β : Type} (e : ε) (f : α → Except ε β) :
    ((Except.error e : Except ε α) >>= f) = Except.error e := rfl

theorem processIdx_nodup {fetchPage : String → Except String DetailPage}
    {sec : String} {rule : Rule} :
    ∀ {idxs : List Nat} {st st' : MatcherState},
      processIdx fetchPage sec rule idxs st = .ok st' →
      (∀ p ∈ st.interest, p.2.broadcasts.Nodup) →
      ∀ p ∈ st'.interest, p.2.broadcasts.Nodup := by
  intro idxs
  induction idxs with
  | nil =>
    intro st st' hrun h
    simp only [processIdx] at hrun
    cases hrun
    exact h
  | cons i rest ih =>
    intro st st' hrun h
    simp only [processIdx] at hrun
    cases hget : st.broadcasts.get? i with
    | none => simp only [hget] at hrun; exact ih hrun h
    | some b =>
      simp only [hget] at hrun
      cases hm : ruleMatchesE rule b with
      | error e =>
        simp only [hm] at hrun
        exact Except.noConfusion hrun
      | ok tv =>
        simp only [hm] at hrun
        cases tv with
        | false => exact ih hrun h
        | true =>
          cases hid : dictLookup b.full_dict "id" with
          | none => simp [exceptOfOption, hid, except_bind_error] at hrun
          | some bid =>
            simp only [exceptOfOption, hid, except_bind_ok] at hrun
            cases hext : get_broadcast_info_extended fetchPage (BASE_URL_DETAIL ++ bid) with
            | error e =>
              simp only [hext, except_bind_error] at hrun
              exact Except.noConfusion hrun
            | ok ext =>
              simp only [hext, except_bind_ok] at hrun
              by_cases hstrip : pyStrip ext = ""
              · rw [if_pos hstrip] at hrun
                cases hinf : dictLookup b.full_dict "info" with
                | none => simp [exceptOfOption, hinf, except_bind_error] at hrun
                | some inf =>
                  simp only [exceptOfOption, hinf, except_bind_ok] at hrun
                  refine ih hrun (addInterest_nodup ?_)
                  simpa using h
              · rw [if_neg hstrip] at hrun
                refine ih hrun (addInterest_nodup ?_)
                simpa using h

theorem findGo_nodup {fetchPage : String → Except String DetailPage} :
    ∀ {rules : List (String × Rule)} {st st' : MatcherState},
      findGo fetchPage rules st = .ok st' →
      (∀ p ∈ st.interest, p.2.broadcasts.Nodup) →
      ∀ p ∈ st'.interest, p.2.broadcasts.Nodup := by
  intro rules
  induction rules with
  | nil =>
    intro st st' hrun h
    simp only [findGo] at hrun
    cases hrun
    exact h
  | cons sr rest ih =>
    intro st st' hrun h
    obtain ⟨sec, rule⟩ := sr
    simp only [findGo] at hrun
    set st1 := if st.interest.any (fun p => p.1 == sec) then st
      else { st with interest := st.interest ++ [(sec, { rule := rule, broadcasts := [] })] }
      with hst1
    have h1 : ∀ p ∈ st1.interest, p.2.broadcasts.Nodup := by
      rw [hst1]
      by_cases hany : st.interest.any (fun p => p.1 == sec) = true
      · rw [if_pos hany]; exact h
      · rw [if_neg hany]
        intro p hp
        simp only [List.mem_append, List.mem_singleton] at hp
        rcases hp with hp | hp
        · exact h p hp
        · subst hp; exact List.nodup_nil
    cases hpi : processIdx fetchPage sec rule (List.range st1.broadcasts.length) st1 with
    | error e => rw [hpi] at hrun; cases hrun
    | ok st2 =>
      rw [hpi] at hrun
      exact ih hrun (processIdx_nodup hpi h1)

/-- C1 amended: the result sets are Python sets of Broadcast objects, so
deduplication is by record object identity, not by the id field: one rule
never holds the same record object twice, and this is preserved across
repeated invocations of the matcher on the same state; but two distinct
record objects sharing one id both enter the set (see the
counterexample). -/
theorem c1_dedup_by_object_identity
    (fetchPage : String → Except String DetailPage) (rules : List (String × Rule))
    (st st' : MatcherState)
    (h : ∀ p ∈ st.interest, p.2.broadcasts.Nodup)
    (hrun : find_broadcasts_of_interest fetchPage rules st = .ok st') :
    ∀ p ∈ st'.interest, p.2.broadcasts.Nodup :=
  findGo_nodup hrun h

/-- Witness for C1: the duplicate-free invariant holds on the concrete run
of the counterexample fixture (duplicate ids, but distinct objects). -/
theorem c1_witness :
    (((c1Result.interest.get? 0).map (fun p => p.2.broadcasts)).getD []).Nodup := by
  have h := c1_dedup_by_object_identity (fun _ => .ok emptyPage) [("R", c1Rule)]
    c1State c1Result (by intro p hp; simp [c1State] at hp) rfl
  cases hg : c1Result.interest.get? 0 with
  | none => simp
  | some p => simpa [hg] using h p (List.get?_mem hg)

/-! ### Claim C4, amended: fallback only on empty text, errors are fatal -/

/-- C4 amended: the rawInfo fallback happens only when the enrichment fetch
succeeds and the extracted text strips to the empty string (then
full_dict[extended_info] is set to the raw info field); an error raised by
the fetch or by the detail-page parse is not caught anywhere in the matcher,
so it aborts the whole matching pass (shown here for a pass over the
matching record). -/
theorem c4_enrichment_failure_and_fallback :
    (∀ (fetchPage : String → Except String DetailPage) (sec : String) (rule : Rule)
        (b : Broadcast) (bid e : String) (log : List String),
        ruleMatchesE rule b = .ok true →
        dictLookup b.full_dict "id" = some bid →
        fetchPage (BASE_URL_DETAIL ++ bid) = .error e →
        find_broadcasts_of_interest fetchPage [(sec, rule)]
          { broadcasts := [b], interest := [], enrichLog := log } = .error e) ∧
    (∀ (fetchPage : String → Except String DetailPage) (sec : String) (rule : Rule)
        (b : Broadcast) (bid s inf : String) (log : List String),
        ruleMatchesE rule b = .ok true →
        dictLookup b.full_dict "id" = some bid →
        get_broadcast_info_extended fetchPage (BASE_URL_DETAIL ++ bid) = .ok s →
        pyStrip s = "" →
        dictLookup b.full_dict "info" = some inf →
        (find_broadcasts_of_interest fetchPage [(sec, rule)]
            { broadcasts := [b], interest := [], enrichLog := log }).map
          (fun st' => (st'.broadcasts.get? 0).bind
            (fun b2 => dictLookup b2.full_dict "extended_info")) = .ok (some inf)) := by
  constructor
  · intro fetchPage sec rule b bid e log hm hid hf
    have hg : get_broadcast_info_extended fetchPage (BASE_URL_DETAIL ++ bid) = .error e := by
      simp only [get_broadcast_info_extended, hf, except_bind_error]
    have hr : List.range 1 = [0] := rfl
    simp only [find_broadcasts_of_interest, findGo, List.any_nil]
    rw [if_neg (by simp)]
    simp only [List.nil_append, List.length_cons, List.length_nil, Nat.zero_add, hr,
      processIdx, List.get?_cons_zero, hm, hid, exceptOfOption,
      except_bind_ok, hg, except_bind_error]
  · intro fetchPage sec rule b bid s inf log hm hid hg hstrip hinf
    have hr : List.range 1 = [0] := rfl
    simp only [find_broadcasts_of_interest, findGo, List.any_nil]
    rw [if_neg (by simp)]
    simp only [List.nil_append, List.length_cons, List.length_nil, Nat.zero_add, hr,
      processIdx, List.get?_cons_zero, hm, hid, exceptOfOption,
      except_bind_ok, hg]
    rw [if_pos hstrip]
    simp only [hinf, exceptOfOption, except_bind_ok, List.set, addInterest,
      List.map_cons, List.map_nil, processIdx]
    simp [Except.map, dictLookup_dictSet]

/-- Witness for C4 at the concrete fixtures: a failing fetch aborts the
pass; a succeeding fetch with empty text falls back to the info field. -/
theorem c4_witness :
    find_broadcasts_of_interest (fun _ => .error "HTTPError") [("R", c1Rule)]
      { broadcasts := [broadcastOf c1Record], interest := [], enrichLog := [] } =
      .error "HTTPError" ∧
    (find_broadcasts_of_interest (fun _ => .ok emptyPage) [("R", c1Rule)]
        { broadcasts := [broadcastOf c1Record], interest := [], enrichLog := [] }).map
      (fun st' => (st'.broadcasts.get? 0).bind
        (fun b2 => dictLookup b2.full_dict "extended_info")) = .ok (some "News") :=
  ⟨c4_enrichment_failure_and_fallback.1 (fun _ => .error "HTTPError") "R" c1Rule
     (broadcastOf c1Record) "X1" "HTTPError" [] (by decide) (by decide) rfl,
   c4_enrichment_failure_and_fallback.2 (fun _ => .ok emptyPage) "R" c1Rule
     (broadcastOf c1Record) "X1" "" "News" [] (by decide) (by decide) (by decide) rfl
     (by decide)⟩

theorem matchesOk_eq_core (rule : Rule) (b : Broadcast) :
    matchesOk rule b = matchesCore rule (core b) := by
  unfold matchesOk ruleMatchesE matchesCore core
  cases hA : (Time.leb rule.start_time b.time && Time.leb b.time rule.end_time) with
  | false => simp [hA]
  | true =>
    simp only [hA, if_true]
    cases hB : rule.days.contains (Int.ofNat b.weekday) with
    | false => simp [hB]
    | true =>
      simp only [hB, if_true]
      cases hT : dictLookup b.data "title" with
      | none => simp [hT]
      | some t => cases htt : rule.titleSearch t <;> simp [hT, htt]

theorem matchesOk_congr {rule : Rule} {b b' : Broadcast} (h : core b = core b') :
    matchesOk rule b = matchesOk rule b' := by
  rw [matchesOk_eq_core, matchesOk_eq_core, h]

theorem matchAt_congr {bs bs' : List Broadcast} (h : bs.map core = bs'.map core)
    (rule : Rule) (i : Nat) : matchAt bs rule i = matchAt bs' rule i := by
  have hg : (bs.get? i).map core = (bs'.get? i).map core := by
    rw [← List.get?_map, ← List.get?_map, h]
  unfold matchAt
  cases hb : bs.get? i with
  | none =>
    rw [hb] at hg
    cases hb' : bs'.get? i with
    | none => rfl
    | some y => rw [hb'] at hg; simp at hg
  | some x =>
    rw [hb] at hg
    cases hb' : bs'.get? i with
    | none => rw [hb'] at hg; simp at hg
    | some y =>
      rw [hb'] at hg
      simp only [Option.map_some'] at hg
      simp only [Option.map_some', Option.getD_some]
      exact matchesOk_congr (Option.some.inj hg)

theorem countP_matchesOk_congr {bs bs' : List Broadcast}
    (h : bs.map core = bs'.map core) (rule : Rule) :
    bs.countP (fun b => matchesOk rule b) = bs'.countP (fun b => matchesOk rule b) := by
  have e1 : ∀ l : List Broadcast,
      l.countP (fun b => matchesOk rule b) = (l.map core).countP (matchesCore rule) := by
    intro l
    rw [List.countP_map]
    refine List.countP_congr (fun b _ => ?_)
    rw [Function.comp_apply, matchesOk_eq_core]
  rw [e1, e1, h]

theorem matchCount_congr {bs bs' : List Broadcast} (h : bs.map core = bs'.map core) :
    ∀ rules : List (String × Rule), matchCount rules bs = matchCount rules bs'
  | [] => rfl
  | p :: rest => by
    simp only [matchCount, List.map_cons, List.sum_cons]
    rw [countP_matchesOk_congr h p.2]
    have hx := matchCount_congr h rest
    simp only [matchCount] at hx
    rw [hx]

theorem list_set_same {α : Type} :
    ∀ (l : List α) (i : Nat) (a : α), l.get? i = some a → l.set i a = l
  | [], _, _, h => by simp at h
  | x :: xs, 0, a, h => by
      simp only [List.get?] at h
      cases h
      rfl
  | x :: xs, n + 1, a, h => by
      simp only [List.get?] at h
      simp only [List.set]
      rw [list_set_same xs n a h]

/-- Bridge from index counting over List.range to direct record counting. -/
theorem countP_range_matchAt (rule : Rule) :
    ∀ bs : List Broadcast,
      (List.range bs.length).countP (fun i => matchAt bs rule i)
        = bs.countP (fun b => matchesOk rule b)
  | [] => rfl
  | b :: t => by
    rw [List.length_cons, List.range_succ_eq_map, List.countP_cons, List.countP_map]
    have h0 : matchAt (b :: t) rule 0 = matchesOk rule b := rfl
    have hs : (List.range t.length).countP ((fun i => matchAt (b :: t) rule i) ∘ Nat.succ)
        = (List.range t.length).countP (fun i => matchAt t rule i) :=
      List.countP_congr (fun i _ => Iff.rfl)
    rw [h0, hs, countP_range_matchAt rule t, List.countP_cons]

/-- Master invariant of the inner loop: the enrichment log grows by exactly
the number of matching positions processed, the core projection of every
record is unchanged, and records not matching the rule are untouched. -/
theorem processIdx_master {fetchPage : String → Except String DetailPage}
    {sec : String} {rule : Rule} :
    ∀ {idxs : List Nat} {st st' : MatcherState},
      processIdx fetchPage sec rule idxs st = .ok st' →
      st'.enrichLog.length =
          st.enrichLog.length + idxs.countP (fun i => matchAt st.broadcasts rule i) ∧
      st'.broadcasts.map core = st.broadcasts.map core ∧
      (∀ i b, st.broadcasts.get? i = some b → matchesOk rule b = false →
        st'.broadcasts.get? i = some b) := by
  intro idxs
  induction idxs with
  | nil =>
    intro st st' hrun
    simp only [processIdx] at hrun
    cases hrun
    exact ⟨by simp, rfl, fun i b hi _ => hi⟩
  | cons i rest ih =>
    intro st st' hrun
    simp only [processIdx] at hrun
    cases hget : st.broadcasts.get? i with
    | none =>
      simp only [hget] at hrun
      have hmAt : matchAt st.broadcasts rule i = false := by
        unfold matchAt; rw [hget]; rfl
      obtain ⟨h1, h2, h3⟩ := ih hrun
      exact ⟨by rw [h1, List.countP_cons, hmAt]; simp, h2, h3⟩
    | some b =>
      simp only [hget] at hrun
      cases hm : ruleMatchesE rule b with
      | error e => simp only [hm] at hrun; exact Except.noConfusion hrun
      | ok tv =>
        simp only [hm] at hrun
        cases tv with
        | false =>
          have hmOk : matchesOk rule b = false := by simp [matchesOk, hm]
          have hmAt : matchAt st.broadcasts rule i = false := by
            unfold matchAt; rw [hget]; exact hmOk
          obtain ⟨h1, h2, h3⟩ := ih hrun
          exact ⟨by rw [h1, List.countP_cons, hmAt]; simp, h2, h3⟩
        | true =>
          have hmOk : matchesOk rule b = true := by simp [matchesOk, hm]
          have hmAt : matchAt st.broadcasts rule i = true := by
            unfold matchAt; rw [hget]; exact hmOk
          cases hid : dictLookup b.full_dict "id" with
          | none => simp [exceptOfOption, hid, except_bind_error] at hrun
          | some bid =>
            simp only [exceptOfOption, hid, except_bind_ok] at hrun
            cases hext : get_broadcast_info_extended fetchPage (BASE_URL_DETAIL ++ bid) with
            | error e =>
              simp only [hext, except_bind_error] at hrun
              exact Except.noConfusion hrun
            | ok ext =>
              simp only [hext, except_bind_ok] at hrun
              have hstep : ∀ v : String,
                  processIdx fetchPage sec rule rest
                    (addInterest { st with
                        broadcasts := st.broadcasts.set i
                          { b with full_dict := dictSet b.full_dict "extended_info" v },
                        enrichLog := st.enrichLog ++ [BASE_URL_DETAIL ++ bid] } sec i)
                      = .ok st' →
                  st'.enrichLog.length = st.enrichLog.length
                      + (i :: rest).countP (fun j => matchAt st.broadcasts rule j) ∧
                  st'.broadcasts.map core = st.broadcasts.map core ∧
                  (∀ j c, st.broadcasts.get? j = some c → matchesOk rule c = false →
                    st'.broadcasts.get? j = some c) := by
                intro v hrun2
                obtain ⟨h1, h2, h3⟩ := ih hrun2
                have hbcore :
                    core { b with full_dict := dictSet b.full_dict "extended_info" v }
                      = core b := rfl
                have hmapeq :
                    (addInterest { st with
                        broadcasts := st.broadcasts.set i
                          { b with full_dict := dictSet b.full_dict "extended_info" v },
                        enrichLog := st.enrichLog ++ [BASE_URL_DETAIL ++ bid] } sec
                        i).broadcasts.map core
                      = st.broadcasts.map core := by
                  show (st.broadcasts.set i _).map core = st.broadcasts.map core
                  rw [List.map_set, hbcore]
                  exact list_set_same _ _ _ (by rw [List.get?_map, hget]; rfl)
                refine ⟨?_, h2.trans hmapeq, ?_⟩
                · rw [h1]
                  have hcnt : rest.countP (fun j => matchAt
                      (addInterest { st with
                          broadcasts := st.broadcasts.set i
                            { b with full_dict := dictSet b.full_dict "extended_info" v },
                          enrichLog := st.enrichLog ++ [BASE_URL_DETAIL ++ bid] } sec
                          i).broadcasts rule j)
                      = rest.countP (fun j => matchAt st.broadcasts rule j) :=
                    List.countP_congr (fun j _ => by rw [matchAt_congr hmapeq rule j])
                  rw [hcnt, List.countP_cons, hmAt]
                  have hlen : (addInterest { st with
                      broadcasts := st.broadcasts.set i
                        { b with full_dict := dictSet b.full_dict "extended_info" v },
                      enrichLog := st.enrichLog ++ [BASE_URL_DETAIL ++ bid] } sec
                      i).enrichLog.length = st.enrichLog.length + 1 := by
                    show (st.enrichLog ++ [BASE_URL_DETAIL ++ bid]).length = _
                    simp
                  rw [hlen, if_pos rfl]
                  omega
                · intro j c hj hfalse
                  by_cases hji : j = i
                  · subst hji
                    rw [hget] at hj
                    cases hj
                    rw [hmOk] at hfalse
                    cases hfalse
                  · have hstm : (addInterest { st with
                        broadcasts := st.broadcasts.set i
                          { b with full_dict := dictSet b.full_dict "extended_info" v },
                        enrichLog := st.enrichLog ++ [BASE_URL_DETAIL ++ bid] } sec
                        i).broadcasts.get? j = some c := by
                      show (st.broadcasts.set i _).get? j = some c
                      rw [List.get?_set_ne _ _ (fun he => hji he.symm)]
                      exact hj
                    exact h3 j c hstm hfalse
              by_cases hstrip : pyStrip ext = ""
              · rw [if_pos hstrip] at hrun
                cases hinf : dictLookup b.full_dict "info" with
                | none => simp [exceptOfOption, hinf, except_bind_error] at hrun
                | some inf =>
                  simp only [exceptOfOption, hinf, except_bind_ok] at hrun
                  exact hstep inf hrun
              · rw [if_neg hstrip] at hrun
                exact hstep (pyStrip ext) hrun

/-- Master invariant of the whole matcher run. -/
theorem findGo_master {fetchPage : String → Except String DetailPage} :
    ∀ {rules : List (String × Rule)} {st st' : MatcherState},
      findGo fetchPage rules st = .ok st' →
      st'.enrichLog.length = st.enrichLog.length + matchCount rules st.broadcasts ∧
      st'.broadcasts.map core = st.broadcasts.map core ∧
      (∀ i b, st.broadcasts.get? i = some b →
        (∀ p ∈ rules, matchesOk p.2 b = false) → st'.broadcasts.get? i = some b) := by
  intro rules
  induction rules with
  | nil =>
    intro st st' hrun
    simp only [findGo] at hrun
    cases hrun
    exact ⟨by simp [matchCount], rfl, fun i b hi _ => hi⟩
  | cons sr rest ih =>
    intro st st' hrun
    obtain ⟨sec, rule⟩ := sr
    simp only [findGo] at hrun
    set st1 := if st.interest.any (fun p => p.1 == sec) then st
      else { st with interest := st.interest ++ [(sec, { rule := rule, broadcasts := [] })] }
      with hst1
    have hb1 : st1.broadcasts = st.broadcasts := by
      rw [hst1]; split <;> rfl
    have hl1 : st1.enrichLog = st.enrichLog := by
      rw [hst1]; split <;> rfl
    cases hpi : processIdx fetchPage sec rule (List.range st1.broadcasts.length) st1 with
    | error e => rw [hpi] at hrun; exact Except.noConfusion hrun
    | ok st2 =>
      rw [hpi] at hrun
      obtain ⟨p1, p2, p3⟩ := processIdx_master hpi
      obtain ⟨q1, q2, q3⟩ := ih hrun
      refine ⟨?_, ?_, ?_⟩
      · rw [q1, p1, hl1, hb1, countP_range_matchAt rule st.broadcasts]
        have hc : matchCount rest st2.broadcasts = matchCount rest st.broadcasts :=
          matchCount_congr (by rw [p2, hb1]) rest
        rw [hc]
        simp only [matchCount, List.map_cons, List.sum_cons]
        omega
      · rw [q2, p2, hb1]
      · intro i b hi hall
        have hmf : matchesOk rule b = false := hall (sec, rule) (List.mem_cons_self _ _)
        have h2 : st2.broadcasts.get? i = some b := p3 i b (by rw [hb1]; exact hi) hmf
        exact q3 i b h2 (fun p hp => hall p (List.mem_cons_of_mem _ hp))

/-- C5 amended: the enrichment assignment is performed once per positive
(rule, record) match with no populated-already skip, so a record matching k
rules is enriched k times in one pass (see the counterexample for k = 2);
records matching no rule are never touched. -/
theorem c5_enrich_once_per_match
    (fetchPage : String → Except String DetailPage) (rules : List (String × Rule))
    (st st' : MatcherState)
    (hrun : find_broadcasts_of_interest fetchPage rules st = .ok st') :
    st'.enrichLog.length = st.enrichLog.length + matchCount rules st.broadcasts ∧
    (∀ i b, st.broadcasts.get? i = some b →
      (∀ p ∈ rules, matchesOk p.2 b = false) → st'.broadcasts.get? i = some b) :=
  ⟨(findGo_master hrun).1, (findGo_master hrun).2.2⟩

/-- Witness for C5 on the concrete two-rule fixture. -/
theorem c5_witness :
    c5Result.enrichLog.length
      = c5State.enrichLog.length + matchCount c5Rules c5State.broadcasts :=
  (c5_enrich_once_per_match (fun _ => .ok emptyPage) c5Rules c5State c5Result rfl).1

/-! ### Claim C2: counterexample to retain-original-on-failed-conversion -/

/-- Counterexample for C2: the retention block tests only KeepOriginal and
dry-run, never the conversion result.  With KeepOriginal False and a
transcoder exiting 1, the item is (correctly) absent from the converted
list, but the freshly downloaded original is deleted anyway: the run ends
with out/file.mp3 written and then removed, not retained. -/
theorem c2_counterexample :
    (download_all_interesting c2Env true true [("R", c2Rule, [broadcastOf c1Record])]
        dlInit).actually_converted = [] ∧
    (download_all_interesting c2Env true true [("R", c2Rule, [broadcastOf c1Record])]
        dlInit).fs.isFile "out/file.mp3" = false ∧
    (download_all_interesting c2Env true true [("R", c2Rule, [broadcastOf c1Record])]
        dlInit).events =
      [FsEvent.mkdir "out", FsEvent.fileWritten "out/file.mp3",
       FsEvent.transcodeRun "out/file.mp3" "out/file.m4a",
       FsEvent.fileRemoved "out/file.mp3"] := by
  refine ⟨?_, ?_, ?_⟩ <;> decide

/-- Counterexample for C6: actually_downloaded.append runs unconditionally
right after Broadcast.download returns, and the transport exception was
already swallowed inside it.  A failed download thus lands in the
downloaded-items list even though the partial file was deleted and nothing
exists on disk; the run continues (no crash). -/
theorem c6_counterexample :
    (download_all_interesting c6Env true true [("R", c2Rule, [broadcastOf c1Record])]
        dlInit).actually_downloaded = ["out/file.mp3"] ∧
    (download_all_interesting c6Env true true [("R", c2Rule, [broadcastOf c1Record])]
        dlInit).fs.isFile "out/file.mp3" = false ∧
    (download_all_interesting c6Env true true [("R", c2Rule, [broadcastOf c1Record])]
        dlInit).crashed = none := by
  refine ⟨?_, ?_, ?_⟩ <;> decide

/-! ### Filesystem lemmas -/

theorem isFile_eraseFile (fs : FS) (p : String) : (fs.eraseFile p).isFile p = false := by
  unfold FS.isFile FS.eraseFile
  simp

theorem isFile_addFile (fs : FS) (p : String) : (fs.addFile p).isFile p = true := by
  unfold FS.isFile FS.addFile
  by_cases h : fs.files.contains p = true
  · rw [if_pos h]; exact h
  · rw [if_neg h]; simp

/-! ### Claim C10: missing conversion input -/

/-- C10: when the input file does not exist, convert_to_m4a returns -1
without touching the filesystem or invoking the transcoder (the state is
returned exactly as given, so no event is emitted), and consequently the
convert block leaves the converted list, the events and the filesystem
unchanged. -/
theorem c10_convert_missing_input :
    (∀ (env : Env) (st : DlState) (media conv : String) (q : Int) (he : Bool),
        st.crashed = none →
        st.fs.isFile media = false →
        convert_to_m4a env st media q conv he = (st, some (-1))) ∧
    (∀ (env : Env) (convert : Bool) (rule : Rule) (fdl fcv : String) (st : DlState),
        st.crashed = none →
        st.fs.isFile fdl = false →
        (convertStage env convert rule fdl fcv st).actually_converted
            = st.actually_converted ∧
        (convertStage env convert rule fdl fcv st).events = st.events ∧
        (convertStage env convert rule fdl fcv st).fs = st.fs) := by
  have part1 : ∀ (env : Env) (st : DlState) (media conv : String) (q : Int) (he : Bool),
      st.crashed = none → st.fs.isFile media = false →
      convert_to_m4a env st media q conv he = (st, some (-1)) := by
    intro env st media conv q he hcr hm
    unfold convert_to_m4a
    rw [if_neg (by simp [hcr]), if_pos (by simp [hm])]
  refine ⟨part1, ?_⟩
  intro env convert rule fdl fcv st hcr hm
  simp only [convertStage]
  rw [if_neg (by simp [hcr])]
  by_cases hc : (convert = true ∧ ¬ st.fs.isFile fcv = true)
  · rw [if_pos hc]
    cases hqs : dictLookup rule.ini "Quality" with
    | none => exact ⟨rfl, rfl, rfl⟩
    | some qs =>
      simp only []
      cases hq : parseIntPy qs with
      | none => exact ⟨rfl, rfl, rfl⟩
      | some q =>
        simp only []
        rw [part1 env st fdl fcv q env.he2 hcr hm]
        simp only []
        rw [if_neg (show ¬ ((some (-1) : Option Int) = some 0) by decide)]
        exact ⟨rfl, rfl, rfl⟩
  · rw [if_neg hc]
    exact ⟨rfl, rfl, rfl⟩

/-- Witness for C10 on a concrete empty filesystem. -/
theorem c10_witness :
    convert_to_m4a c2Env dlInit "x.mp3" 1 "x.m4a" false = (dlInit, some (-1)) ∧
    (convertStage c2Env true c2Rule "x.mp3" "x.m4a" dlInit).actually_converted = [] :=
  ⟨c10_convert_missing_input.1 c2Env dlInit "x.mp3" "x.m4a" 1 false rfl (by decide),
   (c10_convert_missing_input.2 c2Env true c2Rule "x.mp3" "x.m4a" dlInit rfl
      (by decide)).1⟩

/-! ### Claim C2, amended -/

/-- The run of convert_to_m4a in the live branch: input present, target
absent, not a dry run. -/
theorem convert_to_m4a_run {env : Env} {st : DlState} {media conv : String} {q rc : Int}
    {he wrote : Bool}
    (hcr : st.crashed = none) (hm : st.fs.isFile media = true)
    (hc : st.fs.isFile conv = false) (hdry : env.dry_run = false)
    (hff : env.ffmpegRun media conv q he = (rc, wrote)) :
    convert_to_m4a env st media q conv he =
      ({ st with fs := if wrote then st.fs.addFile conv else st.fs,
                 events := st.events ++ [FsEvent.transcodeRun media conv]
                   ++ (if wrote then [FsEvent.fileWritten conv] else []) }, some rc) := by
  unfold convert_to_m4a
  rw [if_neg (by simp [hcr]), if_neg (by simp [hm]), if_neg (by simp [hc]),
    if_neg (by simp [hdry]), hff]

/-- C2 amended: a nonzero transcoder exit does keep the item out of the
converted list, but the retention block is gated only on KeepOriginal and
dry-run, never on the conversion result: whenever KeepOriginal differs from
the string True in a real run and the original exists, the original is
deleted, conversion failure or not. -/
theorem c2_nonzero_exit_not_converted_but_deleted :
    (∀ (env : Env) (rule : Rule) (fdl fcv qs : String) (q rc : Int) (wrote : Bool)
        (st : DlState),
        st.crashed = none →
        st.fs.isFile fcv = false →
        dictLookup rule.ini "Quality" = some qs →
        parseIntPy qs = some q →
        st.fs.isFile fdl = true →
        env.dry_run = false →
        env.ffmpegRun fdl fcv q env.he2 = (rc, wrote) →
        rc ≠ 0 →
        (convertStage env true rule fdl fcv st).actually_converted
          = st.actually_converted) ∧
    (∀ (env : Env) (rule : Rule) (fdl ko : String) (st : DlState),
        st.crashed = none →
        dictLookup rule.ini "KeepOriginal" = some ko →
        ko ≠ "True" →
        env.dry_run = false →
        st.fs.isFile fdl = true →
        (retentionStage env rule fdl st).fs.isFile fdl = false ∧
        FsEvent.fileRemoved fdl ∈ (retentionStage env rule fdl st).events) := by
  constructor
  · intro env rule fdl fcv qs q rc wrote st hcr hfcv hqs hq hfdl hdry hff hrc
    simp only [convertStage]
    rw [if_neg (by simp [hcr]), if_pos (by simp [hfcv])]
    simp only [hqs, hq]
    rw [convert_to_m4a_run hcr hfdl hfcv hdry hff]
    simp only []
    rw [if_neg (by simp [hrc])]
  · intro env rule fdl ko st hcr hko hko' hdry hfdl
    unfold retentionStage
    rw [if_neg (by simp [hcr]), hko]
    simp only
    rw [if_pos ⟨hko', by simp [hdry]⟩, if_pos ⟨by simp [hdry], hfdl⟩]
    refine ⟨isFile_eraseFile st.fs fdl, ?_⟩
    simp

/-- Witness for C2 at the concrete mid-pipeline state. -/
theorem c2_witness :
    (convertStage c2Env true c2Rule "out/file.mp3" "out/file.m4a"
        c2MidState).actually_converted = [] ∧
    (retentionStage c2Env c2Rule "out/file.mp3" c2MidState).fs.isFile "out/file.mp3"
      = false :=
  ⟨by
    have h := c2_nonzero_exit_not_converted_but_deleted.1 c2Env c2Rule "out/file.mp3"
      "out/file.m4a" "1" 1 1 false c2MidState rfl (by decide) (by decide) (by decide)
      (by decide) rfl rfl (by decide)
    exact h,
   (c2_nonzero_exit_not_converted_but_deleted.2 c2Env c2Rule "out/file.mp3" "False"
      c2MidState rfl (by decide) (by decide) rfl (by decide)).1⟩

/-! ### Claim C6, amended -/

/-- C6 amended: on a transport failure Broadcast.download removes any
partial file and swallows the exception, so the batch continues; but the
path is appended to the downloaded-items list unconditionally right after
Broadcast.download returns, so the list records every item whose download
stage ran, failed transfers included, not only successes. -/
theorem c6_transport_failure_cleanup_and_append :
    (∀ (env : Env) (b : Broadcast) (name url s0 : String) (st : DlState),
        st.crashed = none →
        env.dry_run = false →
        st.fs.isFile name = false →
        dictLookup b.data "url_stream" = some url →
        strFormat "{dt} {title} {info_nonl}"
            (dictUpdate b.data [("dt", fmtDt b), ("info_nonl", b.info_nonl)]) = some s0 →
        env.downloadOk url name = false →
        (Broadcast.download env b name st).fs.isFile name = false ∧
        (Broadcast.download env b name st).crashed = none) ∧
    (∀ (env : Env) (b : Broadcast) (fdl fcv : String) (st : DlState),
        st.crashed = none →
        st.fs.isFile fdl = false →
        env.dry_run = false →
        st.fs.isFile fcv = false →
        (Broadcast.download env b fdl st).crashed = none →
        (downloadStage env b fdl fcv st).1.actually_downloaded
          = (Broadcast.download env b fdl st).actually_downloaded ++ [fdl]) := by
  constructor
  · intro env b name url s0 st hcr hdry hname hurl hfmt hdl
    unfold Broadcast.download
    rw [if_neg (by simp [hcr]), hurl]
    simp only [hfmt]
    rw [if_pos (by simp [hdry]), if_pos (by simp [hname]), if_neg (by simp [hdl])]
    by_cases hpart : env.partDownloaded url name = true
    · rw [if_pos hpart]
      rw [if_pos (by simp [isFile_addFile])]
      exact ⟨isFile_eraseFile _ _, hcr⟩
    · rw [if_neg hpart]
      rw [if_neg (by simp [hname])]
      exact ⟨hname, hcr⟩
  · intro env b fdl fcv st hcr hfdl hdry hfcv hok
    unfold downloadStage
    rw [if_neg (by simp [hcr]),
      if_pos ⟨by simp [hfdl], by simp [hdry], by simp [hfcv]⟩,
      if_neg (by simp [hok])]

/-- Witness for C6 with the concrete failing-transport environment. -/
theorem c6_witness :
    (Broadcast.download c6Env (broadcastOf c1Record) "out/file.mp3"
        dlInit).fs.isFile "out/file.mp3" = false ∧
    (downloadStage c6Env (broadcastOf c1Record) "out/file.mp3" "out/file.m4a"
        dlInit).1.actually_downloaded
      = (Broadcast.download c6Env (broadcastOf c1Record) "out/file.mp3"
          dlInit).actually_downloaded ++ ["out/file.mp3"] :=
  ⟨(c6_transport_failure_cleanup_and_append.1 c6Env (broadcastOf c1Record)
      "out/file.mp3" "u" (fmtDt (broadcastOf c1Record) ++ " Journal News") dlInit rfl rfl
      (by decide) (by decide) (by decide) rfl).1,
   c6_transport_failure_cleanup_and_append.2 c6Env (broadcastOf c1Record)
     "out/file.mp3" "out/file.m4a" dlInit rfl (by decide) rfl (by decide) (by decide)⟩

/-! ### Claim C8: dry run mutates nothing -/

theorem downloadStage_dry {env : Env} {b : Broadcast} {fdl fcv : String} {st : DlState}
    (h : env.dry_run = true) : downloadStage env b fdl fcv st = (st, false) := by
  unfold downloadStage
  by_cases hcr : st.crashed.isSome = true
  · rw [if_pos hcr]
  · rw [if_neg hcr, if_neg]
    intro hc
    exact hc.2.1 h

theorem convert_to_m4a_dry {env : Env} {st : DlState} {media conv : String} {q : Int}
    {he : Bool} (h : env.dry_run = true) :
    (convert_to_m4a env st media q conv he).1.events = st.events ∧
    (convert_to_m4a env st media q conv he).1.fs = st.fs := by
  unfold convert_to_m4a
  by_cases h1 : st.crashed.isSome = true
  · rw [if_pos h1]; exact ⟨rfl, rfl⟩
  · rw [if_neg h1]
    by_cases h2 : st.fs.isFile media = true
    · rw [if_neg (by simp [h2])]
      by_cases h3 : st.fs.isFile conv = true
      · rw [if_pos h3]; exact ⟨rfl, rfl⟩
      · rw [if_neg h3, if_pos h]; exact ⟨rfl, rfl⟩
    · rw [if_pos (by simp [h2])]; exact ⟨rfl, rfl⟩

theorem convertStage_dry {env : Env} {convert : Bool} {rule : Rule} {fdl fcv : String}
    {st : DlState} (h : env.dry_run = true) :
    (convertStage env convert rule fdl fcv st).events = st.events ∧
    (convertStage env convert rule fdl fcv st).fs = st.fs := by
  simp only [convertStage]
  by_cases h1 : st.crashed.isSome = true
  · rw [if_pos h1]; exact ⟨rfl, rfl⟩
  · rw [if_neg h1]
    by_cases h2 : (convert = true ∧ ¬ st.fs.isFile fcv = true)
    · rw [if_pos h2]
      cases hqs : dictLookup rule.ini "Quality" with
      | none => exact ⟨rfl, rfl⟩
      | some qs =>
        simp only []
        cases hq : parseIntPy qs with
        | none => exact ⟨rfl, rfl⟩
        | some q =>
          simp only []
          have hd := @convert_to_m4a_dry env st fdl fcv q env.he2 h
          by_cases hr : (convert_to_m4a env st fdl q fcv env.he2).2 = some 0
          · rw [if_pos hr]; exact hd
          · rw [if_neg hr]; exact hd
    · rw [if_neg h2]; exact ⟨rfl, rfl⟩

theorem tagStage_flag_false {env : Env} {tag convert : Bool} {rule : Rule} {nd : Dict}
    {fcv : String} {st : DlState} :
    tagStage env tag convert false rule nd fcv st = st := by
  unfold tagStage
  by_cases h1 : st.crashed.isSome = true
  · rw [if_pos h1]
  · rw [if_neg h1, if_neg]
    intro hc
    exact absurd hc.2.2 (by decide)

theorem retentionStage_dry {env : Env} {rule : Rule} {fdl : String} {st : DlState}
    (h : env.dry_run = true) :
    (retentionStage env rule fdl st).events = st.events ∧
    (retentionStage env rule fdl st).fs = st.fs := by
  unfold retentionStage
  by_cases h1 : st.crashed.isSome = true
  · rw [if_pos h1]; exact ⟨rfl, rfl⟩
  · rw [if_neg h1]
    cases hko : dictLookup rule.ini "KeepOriginal" with
    | none => exact ⟨rfl, rfl⟩
    | some ko =>
      simp only []
      rw [if_neg]
      · exact ⟨rfl, rfl⟩
      · intro hc
        exact hc.2 h

theorem processItem_dry {env : Env} {convert tag : Bool} {sec : String} {rule : Rule}
    {b : Broadcast} {st : DlState} (h : env.dry_run = true) :
    (processItem env convert tag sec rule b st).events = st.events ∧
    (processItem env convert tag sec rule b st).fs = st.fs := by
  simp only [processItem]
  by_cases h1 : st.crashed.isSome = true
  · rw [if_pos h1]; exact ⟨rfl, rfl⟩
  · rw [if_neg h1]
    cases htn : dictLookup rule.ini "TargetName" with
    | none => exact ⟨rfl, rfl⟩
    | some tn =>
      simp only []
      cases hfmt : strFormat tn (dictUpdate b.full_dict
          [("SCRIPTDIR", env.script_dir), ("DOWNLOAD_BASEDIR", env.download_basedir),
           ("SECTION", sec)]) with
      | none => exact ⟨rfl, rfl⟩
      | some rendered =>
        simp only []
        cases htd : dictLookup rule.ini "TargetDir" with
        | none => exact ⟨rfl, rfl⟩
        | some td =>
          simp only []
          cases hdf : strFormat td (dictUpdate b.full_dict
              [("SCRIPTDIR", env.script_dir), ("DOWNLOAD_BASEDIR", env.download_basedir),
               ("SECTION", sec)]) with
          | none => exact ⟨rfl, rfl⟩
          | some folder =>
            simp only []
            rw [if_neg (fun hc => hc.1 h)]
            simp only [downloadStage_dry h, tagStage_flag_false]
            exact ⟨(retentionStage_dry h).1.trans (convertStage_dry h).1,
                   (retentionStage_dry h).2.trans (convertStage_dry h).2⟩

theorem foldl_processItem_dry {env : Env} {convert tag : Bool} {sec : String}
    {rule : Rule} (h : env.dry_run = true) :
    ∀ (bs : List Broadcast) (st : DlState),
      ((bs.foldl (fun acc b => processItem env convert tag sec rule b acc) st).events
          = st.events) ∧
      ((bs.foldl (fun acc b => processItem env convert tag sec rule b acc) st).fs = st.fs)
  | [], _ => ⟨rfl, rfl⟩
  | b :: bs, st => by
      simp only [List.foldl_cons]
      obtain ⟨e1, f1⟩ := @processItem_dry env convert tag sec rule b st h
      obtain ⟨e2, f2⟩ := foldl_processItem_dry h bs
        (processItem env convert tag sec rule b st)
      exact ⟨e2.trans e1, f2.trans f1⟩

theorem foldl_groups_dry {env : Env} {convert tag : Bool} (h : env.dry_run = true) :
    ∀ (gs : List (String × Rule × List Broadcast)) (st : DlState),
      ((gs.foldl (fun acc g => g.2.2.foldl
          (fun acc2 b => processItem env convert tag g.1 g.2.1 b acc2) acc) st).events
        = st.events) ∧
      ((gs.foldl (fun acc g => g.2.2.foldl
          (fun acc2 b => processItem env convert tag g.1 g.2.1 b acc2) acc) st).fs
        = st.fs)
  | [], _ => ⟨rfl, rfl⟩
  | g :: gs, st => by
      simp only [List.foldl_cons]
      obtain ⟨e1, f1⟩ := foldl_processItem_dry h g.2.2 st
      obtain ⟨e2, f2⟩ := foldl_groups_dry h gs (g.2.2.foldl
        (fun acc2 b => processItem env convert tag g.1 g.2.1 b acc2) st)
      exact ⟨e2.trans e1, f2.trans f1⟩

/-- C8: in dry-run mode a whole pipeline run emits no filesystem event and
leaves the filesystem exactly as found, for every match set, every
pre-existing file state and every convert/tag setting: download, convert,
tag and retention are all short-circuited before any mutation. -/
theorem c8_dry_run_no_mutation (env : Env) (convert tag : Bool)
    (interest : List (String × Rule × List Broadcast)) (st : DlState)
    (h : env.dry_run = true) :
    (download_all_interesting env convert tag interest st).events = st.events ∧
    (download_all_interesting env convert tag interest st).fs = st.fs := by
  unfold download_all_interesting
  exact foldl_groups_dry h (sortBySection interest) st

/-- Witness for C8 on a concrete dry run over a pre-existing file. -/
theorem c8_witness :
    (download_all_interesting c8Env true true [("R", c2Rule, [broadcastOf c1Record])]
        c8State).events = c8State.events ∧
    (download_all_interesting c8Env true true [("R", c2Rule, [broadcastOf c1Record])]
        c8State).fs = c8State.fs :=
  c8_dry_run_no_mutation c8Env true true [("R", c2Rule, [broadcastOf c1Record])]
    c8State rfl

end OE1
